import Mathlib

/-!
Verification of the sparse-recovery ADMM solver (src/admm.py) and the BIM
adversarial attack (src/utills.py) of the ADVERSARIAL_SENSITIVTY repository,
shallowly embedded over exact rationals.  Tensors of shape (d, 1) become
functions `Fin d → ℚ`; the module-level sensing matrix `H` of utills.py is an
explicit parameter `Hg` wherever the source reads the global.
-/

namespace AdvSens

/-- Real column vectors of dimension d (tensors of shape (d, 1) in the source). -/
abbrev Vec (d : ℕ) : Type := Fin d → ℚ

/-- torch.sign on a scalar: -1 for negatives, 1 for positives, 0 at 0. -/
def sgn (q : ℚ) : ℚ := if q < 0 then -1 else if 0 < q then 1 else 0

/-- The L1 norm torch.sum(torch.abs(v)). -/
def l1norm {d : ℕ} (v : Vec d) : ℚ := ∑ i, |v i|

/-- torch.sum(v ** 2). -/
def sqSum {d : ℕ} (v : Vec d) : ℚ := ∑ i, (v i) ^ 2

/-- torch.clamp(q, min := lo, max := hi): lower-bound by lo, then upper-bound by hi. -/
def clampQ (q lo hi : ℚ) : ℚ := min (max q lo) hi

/-- torch.linalg.inv via the adjugate formula; coincides with the exact matrix
inverse on every invertible input. -/
def invMat {d : ℕ} (A : Matrix (Fin d) (Fin d) ℚ) : Matrix (Fin d) (Fin d) ℚ :=
  (A.det)⁻¹ • A.adjugate

/-- The ADMM solver object of src/admm.py: the hyperparameters and sensing
matrix stored by __init__, the cached left_term = (HᵀH + rho·I)⁻¹, and the
mutable solver state (s, u, v). -/
structure ADMM (n m : ℕ) where
  H : Matrix (Fin n) (Fin m) ℚ
  mu : ℚ
  lambda_ : ℚ
  max_iter : ℕ
  eps : ℚ
  rho : ℚ
  left_term : Matrix (Fin m) (Fin m) ℚ
  s : Vec m
  u : Vec m
  v : Vec m

/-- ADMM.__init__ (src/admm.py lines 55-77): store the hyperparameters verbatim
(no validation of any kind is performed), compute
left_term = inv(self.H.T @ self.H + rho * eye(m)) and zero-initialise s, u, v. -/
def ADMM.init {n m : ℕ} (H : Matrix (Fin n) (Fin m) ℚ) (mu lambda_ : ℚ)
    (max_iter : ℕ) (eps rho : ℚ) : ADMM n m where
  H := H
  mu := mu
  lambda_ := lambda_
  max_iter := max_iter
  eps := eps
  rho := rho
  left_term := invMat (H.transpose * H + rho • (1 : Matrix (Fin m) (Fin m) ℚ))
  s := 0
  u := 0
  v := 0

/-- ADMM.shrinkage (src/admm.py line 87): sign(x) ⊙ max(|x| − beta, 0)
element-wise. -/
def ADMM.shrinkage {d : ℕ} (x : Vec d) (beta : ℚ) : Vec d :=
  fun i => sgn (x i) * max (|x i| - beta) 0

/-- One iteration of the loop body of ADMM.forward (src/admm.py lines 100-110).
`Hg` is the module-level sensing matrix `H` imported from utills.py: line 103
computes the right term with this global H, while left_term (line 72) and the
recovery error (line 116) use the instance's own self.H. -/
def ADMM.step {n m : ℕ} (Hg : Matrix (Fin n) (Fin m) ℚ) (md : ADMM n m)
    (x : Vec n) : ADMM n m :=
  let u_prev := md.u
  let v_prev := md.v
  let right_term : Vec m := Hg.transpose.mulVec x + md.rho • (v_prev - u_prev)
  let s : Vec m := md.left_term.mulVec right_term
  let v : Vec m := ADMM.shrinkage (s + u_prev) (md.rho / (2 * md.lambda_))
  let u : Vec m := u_prev + md.mu • (s - v)
  { md with s := s, u := u, v := v }

/-- The recovery error appended to the trace (src/admm.py line 116):
torch.sum((self.H @ self.s − x) ** 2), read on the post-update state. -/
def ADMM.recErr {n m : ℕ} (md : ADMM n m) (x : Vec n) : ℚ :=
  sqSum (md.H.mulVec md.s - x)

/-- The fuelled loop of ADMM.forward (src/admm.py lines 99-116): run one step;
if the L1 norm of (s − s_prev) is ≤ self.eps, stop at once without appending;
otherwise append the recovery error of the completed iteration and continue. -/
def ADMM.forward_loop {n m : ℕ} (Hg : Matrix (Fin n) (Fin m) ℚ) (x : Vec n) :
    ℕ → ADMM n m → List ℚ → ADMM n m × List ℚ
  | 0, md, errs => (md, errs)
  | fuel + 1, md, errs =>
    let md2 := ADMM.step Hg md x
    if l1norm (md2.s - md.s) ≤ md2.eps then (md2, errs)
    else ADMM.forward_loop Hg x fuel md2 (errs ++ [ADMM.recErr md2 x])

/-- ADMM.forward (src/admm.py lines 89-117): at most self.max_iter iterations
starting from the current state, returning the final state (whose s field is
the returned estimate) and the list of recovery errors. -/
def ADMM.forward {n m : ℕ} (Hg : Matrix (Fin n) (Fin m) ℚ) (md : ADMM n m)
    (x : Vec n) : ADMM n m × List ℚ :=
  ADMM.forward_loop Hg x md.max_iter md []

/-- ADMM.loss_func (src/admm.py line 132):
0.5 * torch.sum((self.H @ s − x) ** 2) + self.rho * s.norm(p=1); the body
reads self.H and self.rho and assigns no attribute. -/
def ADMM.loss_func {n m : ℕ} (md : ADMM n m) (s : Vec m) (x : Vec n) : ℚ :=
  (1 / 2) * sqSum (md.H.mulVec s - x) + md.rho * l1norm s

/-- Follows the spec's words (§4.1): the exposed loss
0.5·‖H·estimate − observation‖₂² + penalty·‖estimate‖₁, with the L1 term
weighted by the penalty weight rho. -/
def loss_spec_penalty {n m : ℕ} (md : ADMM n m) (s : Vec m) (x : Vec n) : ℚ :=
  (1 / 2) * sqSum (md.H.mulVec s - x) + md.rho * l1norm s

/-- Follows the spec's words (§4.1 objective): the λ-weighted variant
0.5·‖H·estimate − observation‖₂² + λ·‖estimate‖₁, stated for comparison. -/
def loss_spec_lambda {n m : ℕ} (md : ADMM n m) (s : Vec m) (x : Vec n) : ℚ :=
  (1 / 2) * sqSum (md.H.mulVec s - x) + md.lambda_ * l1norm s

/-- Modelled from the spec: the `reset()` operation ("zeroes SolverState",
idempotent) is absent from src/admm.py; ADMM inherits from LandscapeWrapper,
whose module visualize_model.py is not under src/, so the operation is
modelled from the spec's words as zeroing (s, u, v) and keeping the
configuration fields. -/
def ADMM.reset {n m : ℕ} (md : ADMM n m) : ADMM n m :=
  { md with s := 0, u := 0, v := 0 }

/-- The k-th iterate of the loop body of ADMM.forward from state md. -/
def ADMM.iterates {n m : ℕ} (Hg : Matrix (Fin n) (Fin m) ℚ) (x : Vec n)
    (md : ADMM n m) : ℕ → ADMM n m
  | 0 => md
  | k + 1 => ADMM.step Hg (ADMM.iterates Hg x md k) x

/-- Iteration i+1 (the step from iterate i to iterate i+1) satisfies the
convergence test of src/admm.py line 113. -/
def ADMM.convAt {n m : ℕ} (Hg : Matrix (Fin n) (Fin m) ℚ) (x : Vec n)
    (md : ADMM n m) (i : ℕ) : Prop :=
  l1norm ((ADMM.iterates Hg x md (i + 1)).s - (ADMM.iterates Hg x md i).s) ≤
    (ADMM.iterates Hg x md (i + 1)).eps

/-- Outcome of a BIM call (src/utills.py lines 54-89): a normal return of
(adv_x, delta), the uncaught torch autograd error of line 74 when no gradient
exists, or Python's UnboundLocalError at the return statement of line 89. -/
inductive BIMResult (d : ℕ) where
  | ok (adv_x : Vec d) (delta : Vec d)
  | diffErr
  | unboundLocalErr
deriving DecidableEq

/-- Outcome of the inner loop of BIM. -/
inductive BIMLoop (d : ℕ) where
  | ok (adv_x : Vec d) (lastDelta : Option (Vec d))
  | diffErr
deriving DecidableEq

/-- One BIM inner-step update of the adversarial observation
(src/utills.py lines 77-87): adv_x := adv_x + alpha * grad.sign(); then
eta := clamp(adv_x − original_x, −eps, eps) and adv_x := original_x + eta. -/
def BIM_step {d : ℕ} (orig : Vec d) (eps alpha : ℚ) (adv g : Vec d) : Vec d :=
  fun i => orig i + clampQ ((adv i + alpha * sgn (g i)) - orig i) (-eps) eps

/-- The inner loop of BIM (src/utills.py lines 63-87).  gradO abstracts the
external torch autograd engine: gradO k adv stands for
torch.autograd.grad(MSELoss(s_gt, model(adv)), adv) at inner step k, with the
mutated model state absorbed into the step index; none means torch raised
because the gradient path to adv was severed.  Each step takes
delta = alpha * grad.sign(), applies BIM_step and remembers delta as the
last-computed one. -/
def BIM_loop {d : ℕ} (gradO : ℕ → Vec d → Option (Vec d)) (orig : Vec d)
    (eps alpha : ℚ) : ℕ → ℕ → Vec d → Option (Vec d) → BIMLoop d
  | 0, _, adv, lastDelta => BIMLoop.ok adv lastDelta
  | fuel + 1, k, adv, _ =>
    match gradO k adv with
    | none => BIMLoop.diffErr
    | some g =>
      BIM_loop gradO orig eps alpha fuel (k + 1) (BIM_step orig eps alpha adv g)
        (some (fun i => alpha * sgn (g i)))

/-- BIM (src/utills.py lines 54-89): iterate `steps` sign-gradient steps with
projection; the returned delta is bound only inside the loop, so steps == 0
reaches the return statement with delta unbound. -/
def BIM {d : ℕ} (gradO : ℕ → Vec d → Option (Vec d)) (x : Vec d)
    (eps alpha : ℚ) (steps : ℕ) : BIMResult d :=
  match BIM_loop gradO x eps alpha steps 0 x none with
  | BIMLoop.diffErr => BIMResult.diffErr
  | BIMLoop.ok _ none => BIMResult.unboundLocalErr
  | BIMLoop.ok adv (some delta) => BIMResult.ok adv delta

/-- Projection onto the adversarial observation of a normal BIM return. -/
def BIMadv {d : ℕ} : BIMResult d → Option (Vec d)
  | BIMResult.ok adv _ => some adv
  | _ => none

section Lemmas

variable {n m : ℕ}

/-- One loop step leaves the convergence threshold untouched. -/
lemma ADMM.step_eps (Hg : Matrix (Fin n) (Fin m) ℚ) (md : ADMM n m) (x : Vec n) :
    (ADMM.step Hg md x).eps = md.eps := rfl

/-- Resetting after a loop step is the same as resetting the original state. -/
lemma ADMM.reset_step (Hg : Matrix (Fin n) (Fin m) ℚ) (md : ADMM n m) (x : Vec n) :
    ADMM.reset (ADMM.step Hg md x) = ADMM.reset md := rfl

/-- Iterating from a stepped state shifts the iterate index by one. -/
lemma ADMM.iterates_shift (Hg : Matrix (Fin n) (Fin m) ℚ) (x : Vec n)
    (md : ADMM n m) (k : ℕ) :
    ADMM.iterates Hg x (ADMM.step Hg md x) k = ADMM.iterates Hg x md (k + 1) := by
  induction k with
  | zero => rfl
  | succ k ih =>
    show ADMM.step Hg (ADMM.iterates Hg x (ADMM.step Hg md x) k) x =
      ADMM.step Hg (ADMM.iterates Hg x md (k + 1)) x
    rw [ih]

/-- Resetting any iterate gives the reset of the base state. -/
lemma ADMM.reset_iterates (Hg : Matrix (Fin n) (Fin m) ℚ) (x : Vec n)
    (md : ADMM n m) (k : ℕ) :
    ADMM.reset (ADMM.iterates Hg x md k) = ADMM.reset md := by
  induction k with
  | zero => rfl
  | succ k ih => rw [ADMM.iterates, ADMM.reset_step, ih]

/-- Convergence indices shift by one when iterating from a stepped state. -/
lemma ADMM.convAt_step (Hg : Matrix (Fin n) (Fin m) ℚ) (x : Vec n)
    (md : ADMM n m) (i : ℕ) :
    ADMM.convAt Hg x (ADMM.step Hg md x) i = ADMM.convAt Hg x md (i + 1) := by
  unfold ADMM.convAt
  rw [ADMM.iterates_shift, ADMM.iterates_shift]

/-- Characterization of the forward loop: it returns iterate N of the input
state, appending to the accumulator the recovery errors of the first K
iterations, where no iteration among the first K converged and either
iteration K+1 converged before the fuel ran out (and N = K+1, nothing
appended for it) or the fuel was exhausted (K = N = fuel). -/
lemma ADMM.forward_loop_char (Hg : Matrix (Fin n) (Fin m) ℚ) (x : Vec n) :
    ∀ (fuel : ℕ) (md : ADMM n m) (errs : List ℚ),
    ∃ K N,
      ADMM.forward_loop Hg x fuel md errs =
        (ADMM.iterates Hg x md N,
          errs ++ (List.range K).map
            (fun i => ADMM.recErr (ADMM.iterates Hg x md (i + 1)) x)) ∧
      (∀ i, i < K → ¬ ADMM.convAt Hg x md i) ∧
      ((K < fuel ∧ ADMM.convAt Hg x md K ∧ N = K + 1) ∨ (K = fuel ∧ N = fuel)) := by
  intro fuel
  induction fuel with
  | zero =>
    intro md errs
    refine ⟨0, 0, by simp [ADMM.forward_loop, ADMM.iterates], ?_, Or.inr ⟨rfl, rfl⟩⟩
    intro i hi; omega
  | succ fuel ih =>
    intro md errs
    by_cases hc : l1norm ((ADMM.step Hg md x).s - md.s) ≤ (ADMM.step Hg md x).eps
    · refine ⟨0, 1, ?_, ?_, Or.inl ⟨Nat.succ_pos fuel, ?_, rfl⟩⟩
      · simp [ADMM.forward_loop, hc, ADMM.iterates]
      · intro i hi; omega
      · simpa [ADMM.convAt, ADMM.iterates] using hc
    · obtain ⟨K, N, heq, hnc, hdisj⟩ :=
        ih (ADMM.step Hg md x) (errs ++ [ADMM.recErr (ADMM.step Hg md x) x])
      refine ⟨K + 1, N + 1, ?_, ?_, ?_⟩
      · have hstep : ADMM.forward_loop Hg x (fuel + 1) md errs =
            ADMM.forward_loop Hg x fuel (ADMM.step Hg md x)
              (errs ++ [ADMM.recErr (ADMM.step Hg md x) x]) := by
          simp [ADMM.forward_loop, hc]
        rw [hstep, heq]
        simp only [ADMM.iterates_shift]
        congr 1
        rw [List.range_succ_eq_map, List.map_cons, List.map_map, List.append_assoc,
          List.singleton_append]
        congr 1
      · intro i hi
        match i with
        | 0 =>
          intro hcv
          exact hc (by simpa [ADMM.convAt, ADMM.iterates] using hcv)
        | Nat.succ j =>
          have := hnc j (by omega)
          rw [ADMM.convAt_step] at this
          exact this
      · rcases hdisj with ⟨h1, h2, h3⟩ | ⟨h1, h2⟩
        · left
          rw [ADMM.convAt_step] at h2
          exact ⟨by omega, h2, by omega⟩
        · right
          exact ⟨by omega, by omega⟩

/-- Unfolding a non-empty BIM loop when the gradient exists. -/
lemma BIM_loop_succ {d : ℕ} (gradO : ℕ → Vec d → Option (Vec d)) (orig : Vec d)
    (eps alpha : ℚ) (fuel k : ℕ) (adv : Vec d) (dl : Option (Vec d)) (g : Vec d)
    (hgk : gradO k adv = some g) :
    BIM_loop gradO orig eps alpha (fuel + 1) k adv dl =
      BIM_loop gradO orig eps alpha fuel (k + 1) (BIM_step orig eps alpha adv g)
        (some (fun i => alpha * sgn (g i))) := by
  simp [BIM_loop, hgk]

/-- Each clamped update stays inside the L∞ ball of radius eps around the
original observation. -/
lemma BIM_step_bound {d : ℕ} (orig : Vec d) (eps alpha : ℚ) (adv g : Vec d)
    (heps : 0 ≤ eps) (i : Fin d) :
    |BIM_step orig eps alpha adv g i - orig i| ≤ eps := by
  have hval : BIM_step orig eps alpha adv g i - orig i =
      clampQ ((adv i + alpha * sgn (g i)) - orig i) (-eps) eps := by
    unfold BIM_step; ring
  rw [hval]
  unfold clampQ
  rw [abs_le]
  refine ⟨le_min (le_max_right _ _) (by linarith), min_le_right _ _⟩

/-- Whatever state the loop is entered in, a normal exit keeps the adversarial
observation within eps of the original, provided it was within eps on entry. -/
lemma BIM_loop_bound {d : ℕ} (gradO : ℕ → Vec d → Option (Vec d)) (orig : Vec d)
    (eps alpha : ℚ) (heps : 0 ≤ eps) :
    ∀ (fuel k : ℕ) (adv : Vec d) (dl : Option (Vec d)),
      (∀ i, |adv i - orig i| ≤ eps) →
      ∀ adv2 dl2, BIM_loop gradO orig eps alpha fuel k adv dl = BIMLoop.ok adv2 dl2 →
        ∀ i, |adv2 i - orig i| ≤ eps := by
  intro fuel
  induction fuel with
  | zero =>
    intro k adv dl hadv adv2 dl2 hres
    simp only [BIM_loop, BIMLoop.ok.injEq] at hres
    obtain ⟨h1, h2⟩ := hres
    subst h1
    exact hadv
  | succ fuel ih =>
    intro k adv dl hadv adv2 dl2 hres
    cases hgk : gradO k adv with
    | none => simp [BIM_loop, hgk] at hres
    | some g =>
      rw [BIM_loop_succ gradO orig eps alpha fuel k adv dl g hgk] at hres
      exact ih (k + 1) (BIM_step orig eps alpha adv g) (some (fun i => alpha * sgn (g i)))
        (fun i => BIM_step_bound orig eps alpha adv g heps i) adv2 dl2 hres

/-- With a zero budget the clamped update projects back onto the original. -/
lemma BIM_step_eps_zero {d : ℕ} (orig : Vec d) (alpha : ℚ) (adv g : Vec d) :
    BIM_step orig 0 alpha adv g = orig := by
  funext i
  unfold BIM_step clampQ
  rcases le_or_lt (adv i + alpha * sgn (g i) - orig i) 0 with h | h
  · rw [neg_zero, max_eq_right h, min_self, add_zero]
  · rw [neg_zero, max_eq_left h.le, min_eq_right h.le, add_zero]

/-- With a zero budget the loop keeps the adversarial observation exactly at
the original while gradients keep existing. -/
lemma BIM_loop_eps_zero {d : ℕ} (gradO : ℕ → Vec d → Option (Vec d)) (orig : Vec d)
    (alpha : ℚ) (hg : ∀ k v, (gradO k v).isSome) :
    ∀ (fuel k : ℕ) (d0 : Vec d),
      ∃ dl, BIM_loop gradO orig 0 alpha fuel k orig (some d0) =
        BIMLoop.ok orig (some dl) := by
  intro fuel
  induction fuel with
  | zero => intro k d0; exact ⟨d0, rfl⟩
  | succ fuel ih =>
    intro k d0
    obtain ⟨g, hgk⟩ := Option.isSome_iff_exists.mp (hg k orig)
    rw [BIM_loop_succ gradO orig 0 alpha fuel k orig (some d0) g hgk,
      BIM_step_eps_zero]
    exact ih (k + 1) _

/-- The cached left term of a 1×1 solver: (h·h + rho)⁻¹. -/
lemma ADMM.init_left_term_fin_one (h mu lambda_ eps rho : ℚ) (mi : ℕ) :
    (ADMM.init !![h] mu lambda_ mi eps rho).left_term = !![(h * h + rho)⁻¹] := by
  show invMat (!![h].transpose * !![h] + rho • 1) = _
  have hA : (!![h].transpose * !![h] + rho • (1 : Matrix (Fin 1) (Fin 1) ℚ)) =
      !![h * h + rho] := by
    ext i j
    fin_cases i; fin_cases j
    simp [Matrix.mul_apply, Fin.sum_univ_one, Matrix.one_apply]
  rw [hA]
  unfold invMat
  rw [Matrix.det_fin_one, Matrix.adjugate_fin_one]
  ext i j
  fin_cases i; fin_cases j
  simp [Matrix.one_apply]

end Lemmas

section Claims

variable {n m : ℕ}

/-- Claim C2: reset() zeroes the SolverState (s, u, v) and is idempotent, and
reset-then-solve is deterministic: a second reset-then-solve round on the
state the first solve left behind yields bit-identical estimates and traces.
The reset operation is modelled from the spec (it is not in src/admm.py). -/
theorem claimC2_reset_idempotent_deterministic (Hg : Matrix (Fin n) (Fin m) ℚ)
    (md : ADMM n m) (x : Vec n) :
    (ADMM.reset md).s = 0 ∧ (ADMM.reset md).u = 0 ∧ (ADMM.reset md).v = 0 ∧
    ADMM.reset (ADMM.reset md) = ADMM.reset md ∧
    (ADMM.forward Hg (ADMM.reset ((ADMM.forward Hg (ADMM.reset md) x).1)) x).1.s =
      (ADMM.forward Hg (ADMM.reset md) x).1.s ∧
    (ADMM.forward Hg (ADMM.reset ((ADMM.forward Hg (ADMM.reset md) x).1)) x).2 =
      (ADMM.forward Hg (ADMM.reset md) x).2 := by
  have hkey : ADMM.reset ((ADMM.forward Hg (ADMM.reset md) x).1) = ADMM.reset md := by
    obtain ⟨K, N, heq, -, -⟩ :=
      ADMM.forward_loop_char Hg x (ADMM.reset md).max_iter (ADMM.reset md) []
    have hfst : (ADMM.forward Hg (ADMM.reset md) x).1 =
        ADMM.iterates Hg x (ADMM.reset md) N := by
      show (ADMM.forward_loop Hg x (ADMM.reset md).max_iter (ADMM.reset md) []).1 = _
      rw [heq]
    rw [hfst, ADMM.reset_iterates]
    rfl
  refine ⟨rfl, rfl, rfl, rfl, ?_, ?_⟩ <;> rw [hkey]

/-- Claim C6: the trace of a solve call lists, in iteration order, exactly the
reconstruction residuals ‖H·s − x‖₂² of the completed iterations 1..K that did
not pass the convergence test; if the L1 norm of (s − s_prev) fell below the
tolerance at iteration K+1 within the budget, the solver stopped immediately
there and appended no trace entry for that final iteration. -/
theorem claimC6_trace_skips_converged_iteration (Hg : Matrix (Fin n) (Fin m) ℚ)
    (md : ADMM n m) (x : Vec n) :
    ∃ K,
      (ADMM.forward Hg md x).2 =
        (List.range K).map (fun i => ADMM.recErr (ADMM.iterates Hg x md (i + 1)) x) ∧
      (∀ i, i < K → ¬ ADMM.convAt Hg x md i) ∧
      ((K < md.max_iter ∧ ADMM.convAt Hg x md K ∧
          (ADMM.forward Hg md x).1 = ADMM.iterates Hg x md (K + 1)) ∨
        (K = md.max_iter ∧ (ADMM.forward Hg md x).1 = ADMM.iterates Hg x md K)) := by
  obtain ⟨K, N, heq, hnc, hdisj⟩ := ADMM.forward_loop_char Hg x md.max_iter md []
  rw [List.nil_append] at heq
  refine ⟨K, ?_, hnc, ?_⟩
  · show (ADMM.forward_loop Hg x md.max_iter md []).2 = _
    rw [heq]
  · rcases hdisj with ⟨h1, h2, h3⟩ | ⟨h1, h2⟩
    · left
      refine ⟨h1, h2, ?_⟩
      show (ADMM.forward_loop Hg x md.max_iter md []).1 = _
      rw [heq, h3]
    · right
      refine ⟨h1, ?_⟩
      show (ADMM.forward_loop Hg x md.max_iter md []).1 = _
      rw [heq, h2, h1]

/-- Claim C7: every solve call terminates after at most max_iter iterations —
the final state is the N-th loop iterate for some N ≤ max_iter, with no error
path for budget exhaustion — and the trace length never exceeds max_iter. -/
theorem claimC7_max_iter_bound (Hg : Matrix (Fin n) (Fin m) ℚ)
    (md : ADMM n m) (x : Vec n) :
    (∃ N, N ≤ md.max_iter ∧ (ADMM.forward Hg md x).1 = ADMM.iterates Hg x md N) ∧
    (ADMM.forward Hg md x).2.length ≤ md.max_iter := by
  obtain ⟨K, N, heq, -, hdisj⟩ := ADMM.forward_loop_char Hg x md.max_iter md []
  rw [List.nil_append] at heq
  constructor
  · refine ⟨N, ?_, ?_⟩
    · rcases hdisj with ⟨h1, -, h3⟩ | ⟨h1, h2⟩ <;> omega
    · show (ADMM.forward_loop Hg x md.max_iter md []).1 = _
      rw [heq]
  · show (ADMM.forward_loop Hg x md.max_iter md []).2.length ≤ md.max_iter
    rw [heq]
    simp only [List.length_map, List.length_range]
    rcases hdisj with ⟨h1, -, -⟩ | ⟨h1, -⟩ <;> omega

/-- Claim C4: whenever attack returns, the adversarial observation is within
eps of the original in every component, because every inner step clamps the
accumulated perturbation into [−eps, eps] and re-adds it to the original. -/
theorem claimC4_linf_budget {d : ℕ} (gradO : ℕ → Vec d → Option (Vec d))
    (x : Vec d) (eps alpha : ℚ) (steps : ℕ) (adv delta : Vec d) (heps : 0 ≤ eps)
    (hres : BIM gradO x eps alpha steps = BIMResult.ok adv delta) :
    ∀ i, |adv i - x i| ≤ eps := by
  unfold BIM at hres
  cases hloop : BIM_loop gradO x eps alpha steps 0 x none with
  | diffErr => rw [hloop] at hres; exact absurd hres (by simp)
  | ok adv2 dl =>
    rw [hloop] at hres
    cases dl with
    | none => exact absurd hres (by simp)
    | some d0 =>
      simp only [BIMResult.ok.injEq] at hres
      obtain ⟨h1, h2⟩ := hres
      subst h1
      exact BIM_loop_bound gradO x eps alpha heps steps 0 x none
        (fun i => by simpa using heps) adv2 (some d0) hloop

/-- Witness for C4 at a concrete input: one step of BIM from the origin with
gradient 1, alpha = 1 and eps = 1/2 returns the clamped observation 1/2. -/
theorem claimC4_linf_budget_witness : |(1 : ℚ) / 2 - 0| ≤ (1 : ℚ) / 2 :=
  @claimC4_linf_budget 1 (fun _ _ => some (fun _ => 1)) (fun _ => 0) (1 / 2) 1 1
    (fun _ => 1 / 2) (fun _ => 1) (by norm_num)
    (by simp [BIM, BIM_loop, BIM_step, clampQ, sgn, min_def, max_def, funext_iff]
        norm_num) 0

/-- Claim C5: with eps == 0 the attack is a no-op: for any solver/ground truth
(i.e. any gradient oracle that keeps yielding gradients, as torch does on the
intact ADMM graph), any alpha and any steps ≥ 1, it returns an adversarial
observation exactly equal to the original. -/
theorem claimC5_eps_zero_noop {d : ℕ} (gradO : ℕ → Vec d → Option (Vec d))
    (x : Vec d) (alpha : ℚ) (steps : ℕ) (hsteps : 1 ≤ steps)
    (hg : ∀ k v, (gradO k v).isSome) :
    BIMadv (BIM gradO x 0 alpha steps) = some x := by
  obtain ⟨fuel, rfl⟩ : ∃ f, steps = f + 1 := ⟨steps - 1, by omega⟩
  obtain ⟨g, hgk⟩ := Option.isSome_iff_exists.mp (hg 0 x)
  have h1 : BIM_loop gradO x 0 alpha (fuel + 1) 0 x none =
      BIM_loop gradO x 0 alpha fuel 1 x (some (fun i => alpha * sgn (g i))) := by
    rw [BIM_loop_succ gradO x 0 alpha fuel 0 x none g hgk, BIM_step_eps_zero]
  obtain ⟨dl, h2⟩ := BIM_loop_eps_zero gradO x alpha hg fuel 1 (fun i => alpha * sgn (g i))
  unfold BIM
  rw [h1, h2]
  rfl

/-- Witness for C5 at a concrete input: a one-step attack with zero budget on
the constant observation 3 returns it unchanged. -/
theorem claimC5_eps_zero_noop_witness :
    BIMadv (BIM (fun _ _ => some (fun _ => (1 : ℚ)) : ℕ → Vec 1 → Option (Vec 1))
      (fun _ => (3 : ℚ)) 0 1 1) = some (fun _ => (3 : ℚ)) :=
  claimC5_eps_zero_noop (fun _ _ => some (fun _ => 1)) (fun _ => 3) 1 1
    (by norm_num) (fun _ _ => rfl)

/-- Claim C9: if the gradient computation yields no gradient (the autograd
call raises because the solver's path to the observation is severed), attack
fails with the differentiation error surfaced to the caller — it does not
return a zero (or any) perturbation. -/
theorem claimC9_no_gradient_fails {d : ℕ} (gradO : ℕ → Vec d → Option (Vec d))
    (x : Vec d) (eps alpha : ℚ) (steps : ℕ) (hsteps : 1 ≤ steps)
    (hg : gradO 0 x = none) :
    BIM gradO x eps alpha steps = BIMResult.diffErr := by
  obtain ⟨fuel, rfl⟩ : ∃ f, steps = f + 1 := ⟨steps - 1, by omega⟩
  unfold BIM
  have hL : BIM_loop gradO x eps alpha (fuel + 1) 0 x none = BIMLoop.diffErr := by
    simp [BIM_loop, hg]
  rw [hL]

/-- Witness for C9 at a concrete input: an oracle with no gradient at step 0
makes a one-step attack fail with the differentiation error. -/
theorem claimC9_no_gradient_fails_witness :
    BIM (fun _ _ => none : ℕ → Vec 1 → Option (Vec 1)) (fun _ => (0 : ℚ)) 1 1 1 =
      BIMResult.diffErr :=
  claimC9_no_gradient_fails (fun _ _ => none) (fun _ => 0) 1 1 1 (by norm_num) rfl

/-- Claim C10: calling BIM with steps = 0 reaches the return statement with
delta never assigned (it is bound only inside the loop), i.e. the call raises
the unbound-local error instead of returning (original observation, 0). -/
theorem claimC10_zero_steps_unbound_local {d : ℕ}
    (gradO : ℕ → Vec d → Option (Vec d)) (x : Vec d) (eps alpha : ℚ) :
    BIM gradO x eps alpha 0 = BIMResult.unboundLocalErr := rfl

/-- Claim C1 (code bug): the per-iteration updates do follow the stated order
and formulas, but line 103 of src/admm.py computes right_term with the
module-level sensing matrix H of utills.py, not the instance's own self.H.
At the failing input below — a solver constructed with its own H = [[2]] while
the module-level H is [[1]], observation x = [1], zero initial state — the
code's first iteration yields s = 1/5, whereas the claim's formula
(right_term = self.Hᵗ·x + rho·(v − u)) yields s = 2/5. -/
theorem claimC1_right_term_uses_module_H :
    (ADMM.step !![(1 : ℚ)] (ADMM.init !![(2 : ℚ)] 1 1 5 1 1) (fun _ => 1)).s 0 = 1 / 5 ∧
    (ADMM.step (ADMM.init !![(2 : ℚ)] 1 1 5 1 1).H
      (ADMM.init !![(2 : ℚ)] 1 1 5 1 1) (fun _ => 1)).s 0 = 2 / 5 ∧
    (ADMM.step !![(1 : ℚ)] (ADMM.init !![(2 : ℚ)] 1 1 5 1 1) (fun _ => 1)).s ≠
      (ADMM.step (ADMM.init !![(2 : ℚ)] 1 1 5 1 1).H
        (ADMM.init !![(2 : ℚ)] 1 1 5 1 1) (fun _ => 1)).s := by
  have hLT := ADMM.init_left_term_fin_one (2 : ℚ) 1 1 1 1 5
  have h1 : (ADMM.step !![(1 : ℚ)] (ADMM.init !![(2 : ℚ)] 1 1 5 1 1) (fun _ => 1)).s 0 =
      1 / 5 := by
    simp only [ADMM.step]
    rw [hLT]
    simp [ADMM.init, Matrix.mulVec, Matrix.dotProduct, Fin.sum_univ_one]
    norm_num
  have h2 : (ADMM.step (ADMM.init !![(2 : ℚ)] 1 1 5 1 1).H
      (ADMM.init !![(2 : ℚ)] 1 1 5 1 1) (fun _ => 1)).s 0 = 2 / 5 := by
    simp only [ADMM.step]
    rw [hLT]
    simp [ADMM.init, Matrix.mulVec, Matrix.dotProduct, Fin.sum_univ_one]
    norm_num
  refine ⟨h1, h2, fun hcontra => ?_⟩
  have := congrFun hcontra 0
  rw [h1, h2] at this
  norm_num at this

/-- Claim C3, counterexample: constructing with a non-positive step_size
(mu = −1) does not fail — the object is built, carries mu = −1, has performed
the matrix inversion (left_term = (2·2 + 1)⁻¹ = 1/5) and has zeroed state. -/
theorem claimC3_counterexample :
    (ADMM.init !![(2 : ℚ)] (-1) 1 5 1 1).mu = -1 ∧
    (ADMM.init !![(2 : ℚ)] (-1) 1 5 1 1).left_term = !![(1 : ℚ) / 5] ∧
    (ADMM.init !![(2 : ℚ)] (-1) 1 5 1 1).s = 0 := by
  refine ⟨rfl, ?_, rfl⟩
  rw [ADMM.init_left_term_fin_one]
  norm_num

/-- Claim C3, amended: construction performs no validation at all — with any
hyperparameter non-positive (or zero iterations) it still returns normally,
storing the values verbatim, computing the inverse left term and zeroing the
state; no InvalidConfiguration error path exists. -/
theorem claimC3_amended_no_validation {n m : ℕ} (H : Matrix (Fin n) (Fin m) ℚ)
    (mu lambda_ : ℚ) (mi : ℕ) (eps rho : ℚ)
    (_hbad : mu ≤ 0 ∨ lambda_ ≤ 0 ∨ rho ≤ 0 ∨ eps ≤ 0 ∨ mi = 0) :
    (ADMM.init H mu lambda_ mi eps rho).mu = mu ∧
    (ADMM.init H mu lambda_ mi eps rho).lambda_ = lambda_ ∧
    (ADMM.init H mu lambda_ mi eps rho).max_iter = mi ∧
    (ADMM.init H mu lambda_ mi eps rho).eps = eps ∧
    (ADMM.init H mu lambda_ mi eps rho).rho = rho ∧
    (ADMM.init H mu lambda_ mi eps rho).H = H ∧
    (ADMM.init H mu lambda_ mi eps rho).left_term =
      invMat (H.transpose * H + rho • 1) ∧
    (ADMM.init H mu lambda_ mi eps rho).s = 0 ∧
    (ADMM.init H mu lambda_ mi eps rho).u = 0 ∧
    (ADMM.init H mu lambda_ mi eps rho).v = 0 :=
  ⟨rfl, rfl, rfl, rfl, rfl, rfl, rfl, rfl, rfl, rfl⟩

/-- Witness for the amended C3 at a concrete input: step_size −1 is accepted. -/
theorem claimC3_amended_no_validation_witness :
    (ADMM.init !![(2 : ℚ)] (-1) 1 5 1 1).mu = -1 ∧
    (ADMM.init !![(2 : ℚ)] (-1) 1 5 1 1).lambda_ = 1 ∧
    (ADMM.init !![(2 : ℚ)] (-1) 1 5 1 1).max_iter = 5 ∧
    (ADMM.init !![(2 : ℚ)] (-1) 1 5 1 1).eps = 1 ∧
    (ADMM.init !![(2 : ℚ)] (-1) 1 5 1 1).rho = 1 ∧
    (ADMM.init !![(2 : ℚ)] (-1) 1 5 1 1).H = !![(2 : ℚ)] ∧
    (ADMM.init !![(2 : ℚ)] (-1) 1 5 1 1).left_term =
      invMat (!![(2 : ℚ)].transpose * !![(2 : ℚ)] + (1 : ℚ) • 1) ∧
    (ADMM.init !![(2 : ℚ)] (-1) 1 5 1 1).s = 0 ∧
    (ADMM.init !![(2 : ℚ)] (-1) 1 5 1 1).u = 0 ∧
    (ADMM.init !![(2 : ℚ)] (-1) 1 5 1 1).v = 0 :=
  claimC3_amended_no_validation !![(2 : ℚ)] (-1) 1 5 1 1
    (Or.inl (by norm_num))

/-- Claim C8: the exposed loss is exactly
0.5·‖H·estimate − observation‖₂² + rho·‖estimate‖₁ — the L1 term is weighted
by the penalty weight rho, not by the regularization weight λ: the two
formulas differ at the concrete solver below with rho = 1 and λ = 2.  (The
embedded loss_func is a pure function of the state, mirroring the source body,
which assigns no attribute.) -/
theorem claimC8_loss_uses_penalty_weight :
    (∀ (n m : ℕ) (md : ADMM n m) (s : Vec m) (x : Vec n),
      ADMM.loss_func md s x = loss_spec_penalty md s x) ∧
    (ADMM.loss_func (ADMM.init !![(1 : ℚ)] 1 2 5 1 1) (fun _ => 1) (fun _ => 0) ≠
      loss_spec_lambda (ADMM.init !![(1 : ℚ)] 1 2 5 1 1) (fun _ => 1) (fun _ => 0)) := by
  refine ⟨fun n m md s x => rfl, ?_⟩
  unfold ADMM.loss_func loss_spec_lambda
  show (1 / 2) * sqSum ((ADMM.init !![(1 : ℚ)] 1 2 5 1 1).H.mulVec (fun _ => 1) - fun _ => 0) +
      (1 : ℚ) * l1norm (fun _ => 1) ≠
    (1 / 2) * sqSum ((ADMM.init !![(1 : ℚ)] 1 2 5 1 1).H.mulVec (fun _ => 1) - fun _ => 0) +
      (2 : ℚ) * l1norm (fun _ => 1)
  have hl1 : l1norm (fun _ => (1 : ℚ) : Vec 1) = 1 := by
    simp [l1norm, Fin.sum_univ_one]
  rw [hl1]
  intro hcontra
  have := add_left_cancel hcontra
  norm_num at this

end Claims

end AdvSens
